import Mathlib

/-!
Verification of the `ecdsa` signature codec crate (`src/ecdsa/src/lib.rs`).

The crate represents an ECDSA signature over a Weierstrass curve `C` as a
fixed-size byte buffer: `element_size` big-endian bytes of `r` followed by
`element_size` big-endian bytes of `s`.  We embed byte buffers as
`List Nat` (each entry one byte) and a curve as its `element_size`
together with the order of its scalar field.
-/

set_option autoImplicit false

namespace Ecdsa

/-- Curve parameters relevant to this crate: the byte length of one field
element (`C::ElementSize` in the source) and the order of the scalar field
(used only through the `Arithmetic`/`NormalizeLow` capabilities). -/
structure Curve where
  elementSize : Nat
  order : Nat

/-- Interpret a big-endian byte string as a natural number. -/
def bytesToNat (bs : List Nat) : Nat :=
  bs.foldl (fun acc b => acc * 256 + b) 0

/-- Big-endian serialization of `v` into exactly `len` bytes
(`Scalar::into` / `ElementBytes` serialization in the source). -/
def natToBytes : Nat → Nat → List Nat
  | _, 0 => []
  | v, len + 1 => natToBytes (v / 256) len ++ [v % 256]

/-- Rust `Signature::from_scalars` (src/ecdsa/src/lib.rs lines 107-113): start
from a default (all-zero) buffer of size `2 * element_size`, copy `r` into
the first half and `s` into the second half. -/
def from_scalars (C : Curve) (r s : List Nat) : List Nat :=
  let scalar_size := C.elementSize
  let bytes := List.replicate (2 * scalar_size) 0
  let bytes1 := r ++ bytes.drop scalar_size
  bytes1.take scalar_size ++ s

/-- Rust `Signature::r` (lines 136-138): the first `element_size` bytes. -/
def sig_r (C : Curve) (sig : List Nat) : List Nat :=
  sig.take C.elementSize

/-- Rust `Signature::s` (lines 141-143): the bytes from `element_size` on. -/
def sig_s (C : Curve) (sig : List Nat) : List Nat :=
  sig.drop C.elementSize

/-- Rust `TryFrom<&[u8]> for Signature<C>` (lines 215-230): succeed with an
owned copy of the input iff its length is exactly `2 * element_size`,
otherwise return `Error::new()`. -/
def sig_try_from (C : Curve) (bytes : List Nat) : Except Unit (List Nat) :=
  if bytes.length = 2 * C.elementSize then
    Except.ok bytes
  else
    Except.error ()

/-- Rust `AsRef<[u8]> for Signature<C>` (lines 185-192): the raw buffer. -/
def sig_as_ref (sig : List Nat) : List Nat := sig

/-- The `NormalizeLow` capability (lines 255-263), under the hypothesis —
made by the claims — that the curve's implementation correctly reduces a
scalar to the lower half of the field: negate the scalar
(`order - s`) iff it is greater than half the order, and report whether it
was in the higher half. -/
def normalize_low (C : Curve) (s : Nat) : Nat × Bool :=
  if C.order / 2 < s then (C.order - s, true) else (s, false)

/-- Validity of `C::Scalar::from_bytes` (the `elliptic_curve` capability
consumed at line 158): a big-endian byte string parses as a scalar iff its
value is below the scalar field order. -/
def scalarValid (C : Curve) (bs : List Nat) : Prop :=
  bytesToNat bs < C.order

instance (C : Curve) (bs : List Nat) : Decidable (scalarValid C bs) := by
  unfold scalarValid
  infer_instance

/-- Rust `Signature::normalize_s` (lines 156-173).  The Rust method mutates the
`s` half of the buffer through `&mut self` and returns `Result<bool, Error>`;
we model it as returning the post-call buffer together with the result.
If the `s` bytes parse as a scalar, normalize it to the lower half: when it
was high, overwrite the `s` half with the serialized low scalar and return
`Ok(true)`, otherwise leave the buffer alone and return `Ok(false)`.  If
parsing fails, return an error (buffer untouched). -/
def normalize_s (C : Curve) (sig : List Nat) : List Nat × Except Unit Bool :=
  let s_bytes := sig.drop C.elementSize
  if scalarValid C s_bytes then
    let p := normalize_low C (bytesToNat s_bytes)
    if p.2 then
      (sig.take C.elementSize ++ natToBytes p.1 C.elementSize, Except.ok true)
    else
      (sig, Except.ok false)
  else
    (sig, Except.error ())

/-! ### Basic byte-string lemmas -/

theorem bytesToNat_append_singleton (bs : List Nat) (b : Nat) :
    bytesToNat (bs ++ [b]) = bytesToNat bs * 256 + b := by
  simp [bytesToNat, List.foldl_append]

theorem natToBytes_length (v len : Nat) : (natToBytes v len).length = len := by
  induction len generalizing v with
  | zero => simp [natToBytes]
  | succ n ih => simp [natToBytes, ih]

theorem bytesToNat_natToBytes (v len : Nat) (h : v < 256 ^ len) :
    bytesToNat (natToBytes v len) = v := by
  induction len generalizing v with
  | zero =>
    have : v = 0 := by simpa using h
    simp [this, natToBytes, bytesToNat]
  | succ n ih =>
    have hdiv : v / 256 < 256 ^ n := by
      rw [Nat.div_lt_iff_lt_mul (by norm_num : 0 < 256)]
      rw [pow_succ] at h
      exact h
    rw [natToBytes, bytesToNat_append_singleton, ih _ hdiv]
    rw [Nat.mul_comm]
    exact Nat.div_add_mod v 256

theorem natToBytes_lt_256 (v len : Nat) :
    ∀ b ∈ natToBytes v len, b < 256 := by
  induction len generalizing v with
  | zero => simp [natToBytes]
  | succ n ih =>
    intro b hb
    rw [natToBytes] at hb
    rcases List.mem_append.mp hb with h | h
    · exact ih _ b h
    · simp only [List.mem_singleton] at h
      subst h
      exact Nat.mod_lt _ (by norm_num)

/-- A toy curve used to instantiate universally quantified theorems on
concrete inputs: one-byte field elements, scalar field order 251. -/
def toyCurve : Curve := ⟨1, 251⟩

/-- A 32-byte-element curve (e.g. a 256-bit modulus curve). -/
def curve32 : Curve := ⟨32, 2 ^ 256 - 189⟩

/-- Claim C5: for every curve and every pair of byte arrays `r`, `s` of length
`element_size`, `from_scalars` recovers them: `(from_scalars r s).r() = r`
and `(from_scalars r s).s() = s` (and `from_scalars` is a total function,
so it never fails). -/
theorem C5_from_scalars_roundtrip (C : Curve) (r s : List Nat)
    (hr : r.length = C.elementSize) (hs : s.length = C.elementSize) :
    sig_r C (from_scalars C r s) = r ∧ sig_s C (from_scalars C r s) = s := by
  have hfs : from_scalars C r s = r ++ s := by
    simp only [from_scalars]
    rw [List.take_left' hr]
  rw [hfs]
  constructor
  · rw [sig_r]
    exact List.take_left' hr
  · rw [sig_s]
    exact List.drop_left' hr

theorem C5_witness :
    sig_r toyCurve (from_scalars toyCurve [171] [42]) = [171] ∧
    sig_s toyCurve (from_scalars toyCurve [171] [42]) = [42] :=
  C5_from_scalars_roundtrip toyCurve [171] [42] (by decide) (by decide)

/-- Claim C4: `Signature::try_from(bytes)` succeeds, producing an owned copy of
`bytes`, iff `bytes.length = 2 * element_size`; any other length is a
format error; no validation other than the length check is performed (the
biconditional holds for arbitrary byte values). -/
theorem C4_try_from_iff (C : Curve) (bytes : List Nat) :
    (sig_try_from C bytes = Except.ok bytes ↔ bytes.length = 2 * C.elementSize) ∧
    (bytes.length ≠ 2 * C.elementSize → sig_try_from C bytes = Except.error ()) := by
  unfold sig_try_from
  constructor
  · constructor
    · intro h
      by_contra hne
      rw [if_neg hne] at h
      exact Except.noConfusion h
    · intro h
      rw [if_pos h]
  · intro h
    rw [if_neg h]

theorem C4_witness :
    sig_try_from curve32 (List.replicate 63 0) = Except.error () :=
  (C4_try_from_iff curve32 (List.replicate 63 0)).2 (by decide)

/-- Claim C8: equality of Fixed-Form signatures is byte-wise over the full
buffer: two signatures are equal iff their `r` halves are byte-identical
and their `s` halves are byte-identical. -/
theorem C8_eq_iff_halves (C : Curve) (a b : List Nat) :
    a = b ↔ sig_r C a = sig_r C b ∧ sig_s C a = sig_s C b := by
  constructor
  · intro h
    rw [h]
    exact ⟨rfl, rfl⟩
  · rintro ⟨h1, h2⟩
    simp only [sig_r, sig_s] at h1 h2
    rw [← List.take_append_drop C.elementSize a, h1, h2,
      List.take_append_drop]

/-- Claim C9: re-parsing a signature's own serialization round-trips:
`Signature::try_from(sig.as_ref()) = Ok(sig)`, because `as_ref` returns
the full buffer, whose length is `2 * element_size`. -/
theorem C9_reparse_roundtrip (C : Curve) (sig : List Nat)
    (hlen : sig.length = 2 * C.elementSize) :
    sig_try_from C (sig_as_ref sig) = Except.ok sig ∧
    (sig_as_ref sig).length = 2 * C.elementSize := by
  refine ⟨?_, hlen⟩
  rw [sig_as_ref, sig_try_from, if_pos hlen]

theorem C9_witness :
    sig_try_from toyCurve (sig_as_ref [200, 51]) = Except.ok [200, 51] ∧
    (sig_as_ref [200, 51]).length = 2 * toyCurve.elementSize :=
  C9_reparse_roundtrip toyCurve [200, 51] (by decide)

/-- Claim C1: `normalize_s` behaviour, with the field order `q` and the value
`s` of the second half: if the `s` bytes do not parse as a valid scalar
(`q ≤ s`), the call errors; if `s` parses and `q / 2 < s`, the `s` half is
replaced in place by the serialization of `q - s` and the call returns
`Ok(true)`; if `s` parses and `s ≤ q / 2`, the buffer is untouched and the
call returns `Ok(false)`. -/
theorem C1_normalize_s_spec (C : Curve) (sig : List Nat)
    (hlen : sig.length = 2 * C.elementSize) :
    (C.order ≤ bytesToNat (sig.drop C.elementSize) →
      normalize_s C sig = (sig, Except.error ())) ∧
    (bytesToNat (sig.drop C.elementSize) < C.order →
      C.order / 2 < bytesToNat (sig.drop C.elementSize) →
      normalize_s C sig =
        (sig.take C.elementSize ++
          natToBytes (C.order - bytesToNat (sig.drop C.elementSize)) C.elementSize,
         Except.ok true)) ∧
    (bytesToNat (sig.drop C.elementSize) < C.order →
      bytesToNat (sig.drop C.elementSize) ≤ C.order / 2 →
      normalize_s C sig = (sig, Except.ok false)) := by
  refine ⟨?_, ?_, ?_⟩
  · intro h
    simp [normalize_s, scalarValid, Nat.not_lt.mpr h]
  · intro h1 h2
    simp [normalize_s, scalarValid, normalize_low, h1, h2]
  · intro h1 h2
    simp [normalize_s, scalarValid, normalize_low, h1, Nat.not_lt.mpr h2]

theorem C1_witness :
    normalize_s toyCurve [1, 200] = ([1, 51], Except.ok true) ∧
    normalize_s toyCurve [1, 50] = ([1, 50], Except.ok false) ∧
    normalize_s toyCurve [1, 252] = ([1, 252], Except.error ()) := by
  refine ⟨?_, ?_, ?_⟩
  · have h := (C1_normalize_s_spec toyCurve [1, 200] (by decide)).2.1
      (by decide) (by decide)
    simpa [natToBytes, toyCurve] using h
  · exact (C1_normalize_s_spec toyCurve [1, 50] (by decide)).2.2
      (by decide) (by decide)
  · exact (C1_normalize_s_spec toyCurve [1, 252] (by decide)).1 (by decide)

/-- Claim C10: `normalize_s` is atomic on failure: when the `s` half does not
parse as a valid scalar, the call returns an error and the whole buffer
(both halves) is exactly the pre-call buffer. -/
theorem C10_normalize_s_error_atomic (C : Curve) (sig : List Nat)
    (h : ¬ scalarValid C (sig.drop C.elementSize)) :
    normalize_s C sig = (sig, Except.error ()) := by
  simp [normalize_s, h]

theorem C10_witness :
    normalize_s toyCurve [7, 255] = ([7, 255], Except.error ()) :=
  C10_normalize_s_error_atomic toyCurve [7, 255] (by decide)

/-- Claim C7: in every outcome of `normalize_s` (`Ok(true)`, `Ok(false)` or an
error), the `r` half — the first `element_size` bytes of the buffer — is
unchanged (the method only ever rewrites the `s` half; every other
operation of the crate is modelled as a pure function and returns no
modified buffer). -/
theorem C7_normalize_s_frame (C : Curve) (sig : List Nat)
    (hlen : sig.length = 2 * C.elementSize) :
    ((normalize_s C sig).1).take C.elementSize = sig.take C.elementSize := by
  by_cases hv : bytesToNat (sig.drop C.elementSize) < C.order
  · by_cases hh : C.order / 2 < bytesToNat (sig.drop C.elementSize)
    · have hlen_take : (sig.take C.elementSize).length = C.elementSize := by
        rw [List.length_take]
        omega
      simp only [normalize_s, scalarValid, normalize_low, hv, hh, if_true,
        if_pos hv, if_pos hh]
      exact List.take_left' hlen_take
    · simp [normalize_s, scalarValid, normalize_low, hv, hh]
  · simp [normalize_s, scalarValid, hv]

theorem C7_witness :
    ((normalize_s toyCurve [9, 200]).1).take toyCurve.elementSize =
      [9, 200].take toyCurve.elementSize :=
  C7_normalize_s_frame toyCurve [9, 200] (by decide)

/-- Claim C6: if `normalize_s` succeeds (with either boolean), the resulting `s`
half satisfies `s ≤ order / 2`, and calling `normalize_s` again on the
result returns `Ok(false)` and leaves the buffer unchanged.  `horder`
states that the field order fits in `element_size` bytes, which holds for
every real curve. -/
theorem C6_normalize_s_idempotent (C : Curve) (sig sig' : List Nat) (b : Bool)
    (hlen : sig.length = 2 * C.elementSize)
    (horder : C.order ≤ 256 ^ C.elementSize)
    (h : normalize_s C sig = (sig', Except.ok b)) :
    normalize_s C sig' = (sig', Except.ok false) ∧
    bytesToNat (sig'.drop C.elementSize) ≤ C.order / 2 := by
  by_cases hv : bytesToNat (sig.drop C.elementSize) < C.order
  · by_cases hh : C.order / 2 < bytesToNat (sig.drop C.elementSize)
    · have heq : normalize_s C sig =
          (sig.take C.elementSize ++
            natToBytes (C.order - bytesToNat (sig.drop C.elementSize))
              C.elementSize,
           Except.ok true) := by
        simp [normalize_s, scalarValid, normalize_low, hv, hh]
      rw [heq] at h
      have hsig' := congrArg Prod.fst h
      simp only at hsig'
      have hlen_take : (sig.take C.elementSize).length = C.elementSize := by
        rw [List.length_take]
        omega
      have hdrop : sig'.drop C.elementSize =
          natToBytes (C.order - bytesToNat (sig.drop C.elementSize))
            C.elementSize := by
        rw [← hsig']
        exact List.drop_left' hlen_take
      have hs' : bytesToNat (sig'.drop C.elementSize) =
          C.order - bytesToNat (sig.drop C.elementSize) := by
        rw [hdrop]
        exact bytesToNat_natToBytes _ _ (by omega)
      have hvalid' : bytesToNat (sig'.drop C.elementSize) < C.order := by
        rw [hs']
        omega
      have hlow' : ¬ C.order / 2 < bytesToNat (sig'.drop C.elementSize) := by
        rw [hs']
        omega
      constructor
      · simp [normalize_s, scalarValid, normalize_low, hvalid', hlow']
      · rw [hs']
        omega
    · have heq : normalize_s C sig = (sig, Except.ok false) := by
        simp [normalize_s, scalarValid, normalize_low, hv, hh]
      rw [heq] at h
      have hsig' := congrArg Prod.fst h
      simp only at hsig'
      subst hsig'
      have hlow : ¬ C.order / 2 < bytesToNat (sig.drop C.elementSize) := hh
      exact ⟨heq, by omega⟩
  · have heq : normalize_s C sig = (sig, Except.error ()) := by
      simp [normalize_s, scalarValid, hv]
    rw [heq] at h
    have hb := congrArg Prod.snd h
    simp only at hb
    exact absurd hb (by simp)

theorem C6_witness :
    normalize_s toyCurve [1, 51] = ([1, 51], Except.ok false) ∧
    bytesToNat ([1, 51].drop toyCurve.elementSize) ≤ toyCurve.order / 2 :=
  C6_normalize_s_idempotent toyCurve [1, 200] [1, 51] true (by decide)
    (by decide) (by rfl)

/-! ### The Structured-Form (ASN.1 DER) codec

`src/ecdsa/src/lib.rs` declares `pub mod asn1` but the module's file is
not part of the sources; the functions below that carry a
`Modelled from the spec:` note embed its behaviour from the spec
(sections 4.2, 6 and the glossary). -/

/-- Strip leading zero bytes from a big-endian byte string. -/
def stripZeros : List Nat → List Nat
  | [] => []
  | b :: rest => if b = 0 then stripZeros rest else b :: rest

/-- Minimal big-endian byte string of a natural number (no leading zero
byte; `0` maps to the empty string). -/
def minBE (v : Nat) : List Nat :=
  if h : v = 0 then [] else minBE (v / 256) ++ [v % 256]
termination_by v
decreasing_by exact Nat.div_lt_self (Nat.pos_of_ne_zero h) (by norm_num)

/-- Modelled from the spec: DER length-field encoding used by the missing
`asn1` module — short form (one byte) for lengths below 128, otherwise
`0x80 + numLenBytes` followed by the minimal big-endian length bytes. -/
def encLen (n : Nat) : List Nat :=
  if n < 128 then [n] else (128 + (minBE n).length) :: minBE n

/-- Modelled from the spec: DER length-field decoding — a first byte below
128 is the length itself; `0x80` (indefinite length) is rejected;
otherwise the low bits give the count of big-endian length bytes, which
must be present, minimal (no leading zero) and denote a length of at
least 128. Returns the length and the remaining bytes. -/
def decLen : List Nat → Option (Nat × List Nat)
  | [] => none
  | b :: rest =>
    if b < 128 then some (b, rest)
    else
      let k := b - 128
      if k = 0 then none
      else if rest.length < k then none
      else
        match rest.take k with
        | [] => none
        | b0 :: _ =>
          if b0 = 0 then none
          else
            let n := bytesToNat (rest.take k)
            if n < 128 then none else some (n, rest.drop k)

/-- Modelled from the spec: the value bytes of a minimal-length DER
INTEGER for an unsigned big-endian input — strip leading zero bytes down
to the minimal representation (zero becomes the single byte `0x00`), then
prepend one `0x00` sign-padding byte iff the most-significant bit of the
first remaining byte is set. -/
def encIntContent (bs : List Nat) : List Nat :=
  match stripZeros bs with
  | [] => [0]
  | b :: rest => if 128 ≤ b then 0 :: b :: rest else b :: rest

/-- Modelled from the spec: recover the unsigned value bytes from the
content of a DER INTEGER — reject an empty content, a negative integer
(first byte with high bit set), a sign-padding byte not followed by a
high-bit byte, and any superfluous leading zero; strip the single
permitted sign-padding byte. -/
def decIntStrip : List Nat → Option (List Nat)
  | [] => none
  | b :: rest =>
    if 128 ≤ b then none
    else if b = 0 then
      match rest with
      | [] => some []
      | b1 :: _ => if 128 ≤ b1 then some rest else none
    else some (b :: rest)

/-- Modelled from the spec: a full DER INTEGER TLV (tag `0x02`) for an
unsigned big-endian byte string. -/
def encInt (bs : List Nat) : List Nat :=
  2 :: (encLen (encIntContent bs).length ++ encIntContent bs)

/-- Modelled from the spec: parse one DER INTEGER TLV from the front of a
byte string — tag byte `0x02`, DER length, then that many content bytes,
validated and stripped by `decIntStrip`; returns the value bytes and the
remaining input. -/
def parseIntTLV (bytes : List Nat) : Option (List Nat × List Nat) :=
  match bytes with
  | 2 :: rest =>
    match decLen rest with
    | some (n, rest2) =>
      if n ≤ rest2.length then
        match decIntStrip (rest2.take n) with
        | some v => some (v, rest2.drop n)
        | none => none
      else none
    | none => none
  | _ => none

/-- Modelled from the spec: `asn1::Signature::try_from` — parse the outer
SEQUENCE tag `0x30` and DER length, which must equal the count of the
remaining bytes exactly; then two INTEGER TLVs with no trailing bytes.
Returns the two stripped integer values `(r, s)`. -/
def asn1_sig_try_from (bytes : List Nat) : Except Unit (List Nat × List Nat) :=
  match bytes with
  | 48 :: rest =>
    match decLen rest with
    | some (n, rest2) =>
      if rest2.length = n then
        match parseIntTLV rest2 with
        | some (r, rest3) =>
          match parseIntTLV rest3 with
          | some (s, rest4) =>
            if rest4 = [] then Except.ok (r, s) else Except.error ()
          | none => Except.error ()
        | none => Except.error ()
      else Except.error ()
    | none => Except.error ()
  | _ => Except.error ()

/-- The list `l` with the slice `[i, i + src.length)` overwritten by `src`
(Rust's `l[i..i+src.len()].copy_from_slice(src)`). -/
def listSetRange (l : List Nat) (i : Nat) (src : List Nat) : List Nat :=
  l.take i ++ src ++ l.drop (i + src.length)

/-- Conversion of a decoded Structured-Form integer pair to a Fixed-Form
signature.  The in-range case follows `From<asn1::Signature<C>> for
Signature<C>` (src/ecdsa/src/lib.rs lines 232-249): start from an
all-zero buffer and right-align each integer by writing it at offset
`element_size - len` (resp. `2 * element_size - s_len`).  Modelled from
the spec: the source's `checked_sub(...).unwrap()` relies on the missing
`asn1` module guaranteeing that each integer fits in `element_size`
bytes; per the spec, a decoded integer longer than `element_size` is
reported as an error value (value does not fit the curve's field). -/
def asn1_pair_to_fixed (C : Curve) (r s : List Nat) : Except Unit (List Nat) :=
  if r.length ≤ C.elementSize ∧ s.length ≤ C.elementSize then
    let scalar_size := C.elementSize
    let bytes := List.replicate (2 * scalar_size) 0
    let r_begin := scalar_size - r.length
    let s_begin := 2 * scalar_size - s.length
    Except.ok (listSetRange (listSetRange bytes r_begin r) s_begin s)
  else
    Except.error ()

/-- Rust `Signature::from_asn1` (lines 116-123): decode the DER bytes with the
Structured-Form `try_from`, then convert the decoded pair to Fixed-Form. -/
def signature_from_asn1 (C : Curve) (bytes : List Nat) : Except Unit (List Nat) :=
  match asn1_sig_try_from bytes with
  | Except.ok p => asn1_pair_to_fixed C p.1 p.2
  | Except.error e => Except.error e

/-- Rust `Signature::to_asn1` (lines 126-133) followed by serialization of the
Structured-Form value.  Modelled from the spec:
`asn1::Signature::from_scalars` — encode `self.r()` and `self.s()` as
minimal-length DER INTEGERs and wrap them in a SEQUENCE (tag `0x30`)
whose length field is the total length of the two inner TLVs. -/
def sig_to_asn1_der (C : Curve) (sig : List Nat) : List Nat :=
  let body := encInt (sig.take C.elementSize) ++ encInt (sig.drop C.elementSize)
  48 :: (encLen body.length ++ body)

/-! ### Lemmas about `minBE` and `stripZeros` -/

theorem minBE_bytesToNat (v : Nat) : bytesToNat (minBE v) = v := by
  induction v using Nat.strong_induction_on with
  | _ v ih =>
    rw [minBE]
    by_cases h : v = 0
    · simp [h, bytesToNat]
    · rw [dif_neg h, bytesToNat_append_singleton,
        ih (v / 256) (Nat.div_lt_self (Nat.pos_of_ne_zero h) (by norm_num))]
      rw [Nat.mul_comm]
      exact Nat.div_add_mod v 256

theorem minBE_ne_nil (v : Nat) (h : v ≠ 0) : minBE v ≠ [] := by
  rw [minBE, dif_neg h]
  simp

theorem minBE_head_pos (v : Nat) : ∀ b l, minBE v = b :: l → 0 < b := by
  induction v using Nat.strong_induction_on with
  | _ v ih =>
    intro b l h
    by_cases hv : v = 0
    · rw [minBE, dif_pos hv] at h
      exact absurd h (by simp)
    · rw [minBE, dif_neg hv] at h
      cases hq : minBE (v / 256) with
      | nil =>
        rw [hq] at h
        simp only [List.nil_append, List.cons.injEq] at h
        have hdiv : v / 256 = 0 := by
          have hb := minBE_bytesToNat (v / 256)
          rw [hq] at hb
          simpa [bytesToNat] using hb.symm
        have hvlt : v < 256 := by omega
        have hb : v % 256 = b := h.1
        omega
      | cons b0 l0 =>
        rw [hq] at h
        have hb0 : 0 < b0 :=
          ih (v / 256)
            (Nat.div_lt_self (Nat.pos_of_ne_zero hv) (by norm_num)) b0 l0 hq
        simp only [List.cons_append, List.cons.injEq] at h
        omega

theorem stripZeros_length_le (bs : List Nat) :
    (stripZeros bs).length ≤ bs.length := by
  induction bs with
  | nil => simp [stripZeros]
  | cons b rest ih =>
    rw [stripZeros]
    by_cases h : b = 0
    · rw [if_pos h]
      simpa using Nat.le_succ_of_le ih
    · rw [if_neg h]

theorem stripZeros_head_ne_zero (bs : List Nat) :
    ∀ b l, stripZeros bs = b :: l → b ≠ 0 := by
  induction bs with
  | nil =>
    intro b l h
    exact absurd h (by simp [stripZeros])
  | cons b0 rest ih =>
    intro b l h
    rw [stripZeros] at h
    by_cases h0 : b0 = 0
    · rw [if_pos h0] at h
      exact ih b l h
    · rw [if_neg h0] at h
      rw [(List.cons.injEq .. ▸ h : b0 = b ∧ rest = l).1] at h0
      exact h0

theorem replicate_append_stripZeros (bs : List Nat) :
    List.replicate (bs.length - (stripZeros bs).length) 0 ++ stripZeros bs
      = bs := by
  induction bs with
  | nil => simp [stripZeros]
  | cons b rest ih =>
    rw [stripZeros]
    by_cases h : b = 0
    · rw [if_pos h]
      have hle := stripZeros_length_le rest
      have : (b :: rest).length - (stripZeros rest).length
          = ((rest.length - (stripZeros rest).length) + 1) := by
        simp only [List.length_cons]
        omega
      rw [this, List.replicate_succ, List.cons_append, ih, h]
    · rw [if_neg h]
      simp

/-! ### DER round-trip lemmas -/

theorem decLen_encLen (n : Nat) (rest : List Nat) :
    decLen (encLen n ++ rest) = some (n, rest) := by
  by_cases h : n < 128
  · simp [encLen, decLen, h]
  · have hne : n ≠ 0 := by omega
    obtain ⟨b0, l0, hb⟩ := List.exists_cons_of_ne_nil (minBE_ne_nil n hne)
    have hb0 : 0 < b0 := minBE_head_pos n b0 l0 hb
    rw [encLen, if_neg h, List.cons_append]
    rw [decLen]
    rw [if_neg (by omega : ¬ 128 + (minBE n).length < 128)]
    have hK : 128 + (minBE n).length - 128 = (minBE n).length := by omega
    simp only [hK]
    rw [if_neg (by rw [hb]; simp : ¬ (minBE n).length = 0)]
    rw [if_neg (by simp : ¬ (minBE n ++ rest).length < (minBE n).length)]
    rw [List.take_left, List.drop_left]
    rw [hb]
    have hlt : ¬ bytesToNat (b0 :: l0) < 128 := by
      rw [← hb, minBE_bytesToNat]
      exact h
    have hn : bytesToNat (b0 :: l0) = n := by rw [← hb, minBE_bytesToNat]
    simp [hb0.ne', hlt, hn]
    omega

theorem decIntStrip_encIntContent (bs : List Nat) :
    decIntStrip (encIntContent bs) = some (stripZeros bs) := by
  cases hsz : stripZeros bs with
  | nil =>
    rw [encIntContent, hsz]
    simp [decIntStrip]
  | cons b l =>
    have hb : b ≠ 0 := stripZeros_head_ne_zero bs b l hsz
    rw [encIntContent, hsz]
    by_cases hhi : 128 ≤ b
    · simp [decIntStrip, hhi]
    · simp [decIntStrip, hb, hhi]

theorem parseIntTLV_encInt (bs rest : List Nat) :
    parseIntTLV (encInt bs ++ rest) = some (stripZeros bs, rest) := by
  rw [encInt, List.cons_append, List.append_assoc]
  rw [parseIntTLV]
  rw [decLen_encLen]
  simp [List.take_left, List.drop_left, decIntStrip_encIntContent,
    Nat.le_add_right]

theorem parseIntTLV_encInt_nil (bs : List Nat) :
    parseIntTLV (encInt bs) = some (stripZeros bs, []) := by
  have h := parseIntTLV_encInt bs []
  rwa [List.append_nil] at h

theorem listSetRange_replicate (n2 i : Nat) (src : List Nat)
    (h : i + src.length ≤ n2) :
    listSetRange (List.replicate n2 0) i src =
      List.replicate i 0 ++ src ++
        List.replicate (n2 - (i + src.length)) 0 := by
  rw [listSetRange, List.take_replicate, List.drop_replicate,
    Nat.min_eq_left (by omega : i ≤ n2)]

theorem listSetRange_at_end (A src : List Nat) (i : Nat)
    (h : i + src.length = A.length) :
    listSetRange A i src = A.take i ++ src := by
  rw [listSetRange, h, List.drop_length, List.append_nil]

theorem asn1_pair_to_fixed_ok (C : Curve) (r s : List Nat)
    (hr : r.length ≤ C.elementSize) (hs : s.length ≤ C.elementSize) :
    asn1_pair_to_fixed C r s =
      Except.ok ((List.replicate (C.elementSize - r.length) 0 ++ r) ++
        (List.replicate (C.elementSize - s.length) 0 ++ s)) := by
  simp only [asn1_pair_to_fixed]
  rw [if_pos ⟨hr, hs⟩]
  rw [listSetRange_replicate (2 * C.elementSize) (C.elementSize - r.length) r
    (by omega)]
  have e1 : 2 * C.elementSize - (C.elementSize - r.length + r.length)
      = C.elementSize := by omega
  rw [e1]
  have hA1 : (List.replicate (C.elementSize - r.length) 0 ++ r).length
      = C.elementSize := by
    simp only [List.length_append, List.length_replicate]
    omega
  have hAlen : ((List.replicate (C.elementSize - r.length) 0 ++ r) ++
      List.replicate C.elementSize 0).length = 2 * C.elementSize := by
    simp only [List.length_append, List.length_replicate]
    omega
  rw [listSetRange_at_end _ s _ (by rw [hAlen]; omega)]
  rw [List.take_append_eq_append_take]
  rw [List.take_of_length_le (by rw [hA1]; omega)]
  rw [hA1]
  rw [List.take_replicate]
  rw [Nat.min_eq_left (by omega)]
  have e2 : 2 * C.elementSize - s.length - C.elementSize
      = C.elementSize - s.length := by omega
  rw [e2]
  rw [List.append_assoc]

/-- Claim C3: converting a decoded Structured-Form pair to Fixed-Form
right-aligns each integer (already stripped of its sign padding) into an
`element_size`-byte half, left-padded with zeroes; an integer longer than
`element_size` bytes makes the conversion return an error value (the
conversion is a total function, so it never panics). -/
theorem C3_asn1_to_fixed_aligns (C : Curve) (r s : List Nat) :
    (r.length ≤ C.elementSize → s.length ≤ C.elementSize →
      asn1_pair_to_fixed C r s =
        Except.ok ((List.replicate (C.elementSize - r.length) 0 ++ r) ++
          (List.replicate (C.elementSize - s.length) 0 ++ s))) ∧
    (¬ (r.length ≤ C.elementSize ∧ s.length ≤ C.elementSize) →
      asn1_pair_to_fixed C r s = Except.error ()) := by
  constructor
  · intro hr hs
    exact asn1_pair_to_fixed_ok C r s hr hs
  · intro h
    simp only [asn1_pair_to_fixed]
    rw [if_neg h]

theorem C3_witness :
    asn1_pair_to_fixed curve32 (List.replicate 33 1) [1] =
      Except.error () ∧
    asn1_pair_to_fixed toyCurve [5] [1] = Except.ok [5, 1] := by
  constructor
  · exact (C3_asn1_to_fixed_aligns curve32 (List.replicate 33 1) [1]).2
      (by decide)
  · have h := (C3_asn1_to_fixed_aligns toyCurve [5] [1]).1 (by decide)
      (by decide)
    simpa using h

/-- Claim C2: for every valid Fixed-Form signature, converting to
Structured-Form, serializing to DER bytes, decoding those bytes back and
converting to Fixed-Form yields the original signature. -/
theorem C2_fixed_structured_roundtrip (C : Curve) (sig : List Nat)
    (hlen : sig.length = 2 * C.elementSize) :
    signature_from_asn1 C (sig_to_asn1_der C sig) = Except.ok sig := by
  have hrlen : (sig.take C.elementSize).length = C.elementSize := by
    rw [List.length_take]
    omega
  have hslen : (sig.drop C.elementSize).length = C.elementSize := by
    rw [List.length_drop]
    omega
  have hdec : asn1_sig_try_from (sig_to_asn1_der C sig) =
      Except.ok (stripZeros (sig.take C.elementSize),
        stripZeros (sig.drop C.elementSize)) := by
    simp only [sig_to_asn1_der]
    rw [asn1_sig_try_from]
    rw [decLen_encLen]
    simp [parseIntTLV_encInt, parseIntTLV_encInt_nil]
  simp only [signature_from_asn1, hdec]
  have hsr : (stripZeros (sig.take C.elementSize)).length ≤ C.elementSize :=
    (stripZeros_length_le (sig.take C.elementSize)).trans (le_of_eq hrlen)
  have hss : (stripZeros (sig.drop C.elementSize)).length ≤ C.elementSize :=
    (stripZeros_length_le (sig.drop C.elementSize)).trans (le_of_eq hslen)
  rw [asn1_pair_to_fixed_ok C _ _ hsr hss]
  have h1 : List.replicate
        (C.elementSize - (stripZeros (sig.take C.elementSize)).length) 0 ++
      stripZeros (sig.take C.elementSize) = sig.take C.elementSize := by
    have h := replicate_append_stripZeros (sig.take C.elementSize)
    rwa [hrlen] at h
  have h2 : List.replicate
        (C.elementSize - (stripZeros (sig.drop C.elementSize)).length) 0 ++
      stripZeros (sig.drop C.elementSize) = sig.drop C.elementSize := by
    have h := replicate_append_stripZeros (sig.drop C.elementSize)
    rwa [hslen] at h
  rw [h1, h2, List.take_append_drop]

theorem C2_witness :
    signature_from_asn1 toyCurve (sig_to_asn1_der toyCurve [200, 51]) =
      Except.ok [200, 51] :=
  C2_fixed_structured_roundtrip toyCurve [200, 51] (by decide)

end Ecdsa
